import Mathlib

/-!
A shallow embedding of the AudioScribe segmentation-and-reassembly
pipeline: the split planning of `audio.py`, the retry loops of
`transcription.py`, and the transcript store and series merge of
`transcript.py`.  File systems are modelled as association lists from
file names to contents, byte sizes are exact naturals, and Python's
int/float arithmetic on sizes and durations is carried out in `ℚ`.
-/

namespace AudioScribe

/-! ### Character-list utilities shared by the path and regex models -/

/-- Code-point lexicographic comparison of two character lists: the order
Python uses when it sorts strings. -/
def charListLe : List Char → List Char → Bool
  | [], _ => true
  | _ :: _, [] => false
  | a :: as, b :: bs => if a = b then charListLe as bs else decide (a < b)

/-- The string order of Python's `sorted`, as a relation on `String`. -/
def str_le (a b : String) : Prop := charListLe a.toList b.toList = true

instance : DecidableRel str_le :=
  fun a b => inferInstanceAs (Decidable (charListLe a.toList b.toList = true))

theorem charListLe_total : ∀ as bs : List Char,
    charListLe as bs = true ∨ charListLe bs as = true := by
  intro as
  induction as with
  | nil => intro bs; left; rfl
  | cons a as ih =>
    intro bs
    cases bs with
    | nil => right; rfl
    | cons b bs =>
      by_cases hab : a = b
      · subst hab
        rcases ih bs with h | h
        · left; simpa [charListLe] using h
        · right; simpa [charListLe] using h
      · rcases lt_or_gt_of_ne hab with h | h
        · left; simp [charListLe, hab, h]
        · right
          have hba : ¬ b = a := fun hEq => hab hEq.symm
          simp [charListLe, hba, h]

theorem charListLe_trans : ∀ as bs cs : List Char,
    charListLe as bs = true → charListLe bs cs = true → charListLe as cs = true := by
  intro as
  induction as with
  | nil => intro bs cs _ _; rfl
  | cons a as ih =>
    intro bs cs hab hbc
    cases bs with
    | nil => simp [charListLe] at hab
    | cons b bs =>
      cases cs with
      | nil => simp [charListLe] at hbc
      | cons c cs =>
        by_cases h1 : a = b
        · subst h1
          by_cases h2 : a = c
          · subst h2
            simp only [charListLe, if_pos rfl] at hab hbc ⊢
            exact ih bs cs hab hbc
          · simp only [charListLe, if_pos rfl] at hab
            simpa [charListLe, h2] using hbc
        · by_cases h2 : b = c
          · subst h2
            simpa [charListLe, fun hEq => h1 hEq] using hab
          · simp only [charListLe, if_neg h1, decide_eq_true_eq] at hab
            simp only [charListLe, if_neg h2, decide_eq_true_eq] at hbc
            have hac : a < c := lt_trans hab hbc
            simp [charListLe, ne_of_lt hac, hac]

instance : IsTotal String str_le := ⟨fun a b => charListLe_total a.toList b.toList⟩

instance : IsTrans String str_le :=
  ⟨fun a b c h1 h2 => charListLe_trans a.toList b.toList c.toList h1 h2⟩

/-! ### Glob matching

`pathlib.Path.glob` with a pattern of the shape `pre*suf` matches exactly
the flat names that factor as `pre ++ mid ++ suf`; the `*` matches any
(possibly empty) run of characters of a single path component. -/

/-- Match a flat file name against the glob pattern `pre*suf`. -/
def glob_match (pre suf name : String) : Bool :=
  decide (pre.toList <+: name.toList) &&
    decide (suf.toList <:+ name.toList.drop pre.toList.length)

/-! ### `audio.py`: configuration, metadata validation and `split_audio` -/

/-- `AudioConfig` from `config.py`, with its literal defaults (5 MB split
ceiling, 600 s duration ceiling, 25 MB service limit).  Sizes and
durations are rationals standing for exact Python numbers. -/
structure AudioConfig where
  MAX_SPLIT_SIZE_MB : ℚ := 5
  MAX_SPLIT_DURATION : ℚ := 600
  MAX_FILE_SIZE : ℕ := 25 * 1024 * 1024

/-- Which metadata field `_validate_audio_metadata` reports as invalid:
the bit rate (error text "Invalid bit rate: not a valid number") or the
duration ("Invalid duration: not a valid number"). -/
inductive MetadataError where
  | invalidBitrate
  | invalidDuration
deriving DecidableEq

/-- `_validate_audio_metadata` from `audio.py`.  The probe output is
abstracted to its two parsed fields: `bitRate` is `some b` when
`info["streams"][0]["bit_rate"]` is present and parses to the integer
`b` (`none` for a missing or unparseable field), and likewise
`duration` for `info["format"]["duration"]`.  A missing, unparseable or
non-positive bit rate is reported as `invalidBitrate` before the
duration is even looked at. -/
def validate_audio_metadata (bitRate : Option ℤ) (duration : Option ℚ) :
    Except MetadataError (ℤ × ℚ) :=
  match bitRate with
  | none => .error .invalidBitrate
  | some b =>
    if b ≤ 0 then .error .invalidBitrate
    else
      match duration with
      | none => .error .invalidDuration
      | some d => if d ≤ 0 then .error .invalidDuration else .ok (b, d)

/-- The size-based segment duration of `split_audio`:
`(MAX_SPLIT_SIZE_MB * 8 * 1024 * 1024) / bitrate` seconds of audio fill
the size ceiling at the measured bit rate. -/
def size_based_duration (maxSizeMB : ℚ) (bitrate : ℤ) : ℚ :=
  maxSizeMB * 8 * 1024 * 1024 / (bitrate : ℚ)

/-- The target segment duration of `split_audio`: the tighter of the
size-derived ceiling and the configured duration ceiling. -/
def segment_duration (cfg : AudioConfig) (bitrate : ℤ) : ℚ :=
  min (size_based_duration cfg.MAX_SPLIT_SIZE_MB bitrate) cfg.MAX_SPLIT_DURATION

/-- Does `name` match the glob `<stem>_part*.mp3` used for split files? -/
def split_match (stem name : String) : Bool :=
  glob_match (stem ++ "_part") ".mp3" name

/-- `get_existing_splits` from `audio.py`:
`sorted(output_dir.glob(f"{stem}_part*.mp3"))`, the lexicographically
sorted list of split files already present for this stem. -/
def get_existing_splits (stem : String) (dirFiles : List String) : List String :=
  List.insertionSort str_le (dirFiles.filter (fun n => split_match stem n))

/-- The external world `split_audio` interacts with: the names in the
output directory, whether the source path is a regular file, the two
parsed probe fields, and the files the external segmenter would create
when asked to cut at a given segment duration. -/
structure SplitWorld where
  splitsDir : List String
  sourceIsFile : Bool
  probeBitrate : Option ℤ
  probeDuration : Option ℚ
  segmenter : ℚ → List String

/-- The errors `split_audio` raises in the modelled fragment. -/
inductive SplitError where
  | fileNotFound
  | metadata (e : MetadataError)
  | noSplitsCreated
deriving DecidableEq

/-- The error-path cleanup of `split_audio`: delete every file matching
`<stem>_part*.mp3` from the output directory. -/
def cleanup_splits (stem : String) (files : List String) : List String :=
  files.filter (fun n => !split_match stem n)

/-- `split_audio` from `audio.py`, for a source file whose (possibly
already converted) path has stem `stem`; the `.m4a` branch is the
identity on such inputs.  Returns the result, the output directory's
post-state, and how many times the external segmenter was invoked.
Existing splits short-circuit everything; otherwise the path is
validated, the probe metadata is validated, the segment duration is
computed and the segmenter is invoked once at that duration; an error
path deletes the files matching this stem's naming template. -/
def split_audio (cfg : AudioConfig) (stem : String) (w : SplitWorld) :
    Except SplitError (List String) × SplitWorld × ℕ :=
  let existing := get_existing_splits stem w.splitsDir
  if existing = [] then
    if w.sourceIsFile = false then
      (.error .fileNotFound, { w with splitsDir := cleanup_splits stem w.splitsDir }, 0)
    else
      match validate_audio_metadata w.probeBitrate w.probeDuration with
      | .error e =>
        (.error (.metadata e), { w with splitsDir := cleanup_splits stem w.splitsDir }, 0)
      | .ok (bitrate, _) =>
        let segDur := segment_duration cfg bitrate
        let newFiles := w.splitsDir ++ w.segmenter segDur
        let splits := get_existing_splits stem newFiles
        if splits = [] then
          (.error .noSplitsCreated, { w with splitsDir := cleanup_splits stem newFiles }, 1)
        else
          (.ok splits, { w with splitsDir := newFiles }, 1)
  else
    (.ok existing, w, 0)

/-! ### `transcription.py`: the retry loops of `transcribe_file` and
`clean_transcript`

The remote capability is abstracted by `call : ℕ → Except ε α`: what the
service would return on its n-th invocation.  The loops report the
result, how many times `call` was invoked, and the list of back-off
sleeps performed between attempts. -/

/-- One outcome of the shared retry loop pattern
`for attempt in range(retries)`: a success, the re-raised failure of the
final attempt (`attempt == retries - 1`), or the generic `RuntimeError`
after a loop that never ran. -/
inductive RetryOutcome (ε α : Type) where
  | ok (a : α)
  | raised (e : ε)
  | exhausted

/-- The retry loop common to `transcribe_file` and `clean_transcript`:
starting at attempt index `attempt` with `fuel` loop iterations left, try
the call; on failure re-raise when this was the final attempt, otherwise
sleep `30 * 2 ** attempt` seconds and continue. -/
def retry_go {ε α : Type} (call : ℕ → Except ε α) : ℕ → ℕ → RetryOutcome ε α × ℕ × List ℕ
  | _, 0 => (.exhausted, 0, [])
  | attempt, fuel + 1 =>
    match call attempt with
    | .ok a => (.ok a, 1, [])
    | .error e =>
      if fuel = 0 then (.raised e, 1, [])
      else
        let r := retry_go call (attempt + 1) fuel
        (r.1, r.2.1 + 1, 30 * 2 ^ attempt :: r.2.2)

/-- `MAX_FILE_SIZE_MB` from `transcription.py`: OpenAI's 25 MB limit. -/
def MAX_FILE_SIZE_MB : ℚ := 25

/-- The observable outcome of `transcribe_file`. -/
inductive StageResult (ε α : Type) where
  | ok (a : α)
  | fileNotFound
  | sizeExceeded
  | remoteFailure (e : ε)
  | exhausted

/-- `transcribe_file` from `transcription.py`: check existence, check
`st_size / (1024 * 1024) >= MAX_FILE_SIZE_MB` (both before any remote
call), then run the retry loop from attempt 0 with budget `retries`. -/
def transcribe_file {ε α : Type} (fileExists : Bool) (sizeBytes : ℕ)
    (call : ℕ → Except ε α) (retries : ℕ) : StageResult ε α × ℕ × List ℕ :=
  if fileExists = false then (.fileNotFound, 0, [])
  else if MAX_FILE_SIZE_MB ≤ (sizeBytes : ℚ) / (1024 * 1024) then (.sizeExceeded, 0, [])
  else
    match retry_go call 0 retries with
    | (.ok a, n, s) => (.ok a, n, s)
    | (.raised e, n, s) => (.remoteFailure e, n, s)
    | (.exhausted, n, s) => (.exhausted, n, s)

/-! ### Path-name helpers of `transcript.py` -/

/-- Index of the last `'.'` in a character list, when there is one:
Python's `name.rfind('.')` restricted to a hit. -/
def lastDotIdx : List Char → Option ℕ
  | [] => none
  | c :: cs =>
    match lastDotIdx cs with
    | some i => some (i + 1)
    | none => if c = '.' then some 0 else none

/-- `pathlib.PurePath.suffix` on a flat name: the final `.ext` token,
empty when the last dot is the first character, the last character or
absent. -/
def pathSuffix (name : String) : String :=
  let l := name.toList
  match lastDotIdx l with
  | some i => if 0 < i ∧ i + 1 < l.length then String.mk (l.drop i) else ""
  | none => ""

/-- `_get_base_filename` from `transcript.py` (and, via
`suffixes[-1:]`, from `transcription.py`'s cleaner): strip exactly the
final extension from the name, keeping every other period. -/
def get_base_filename (name : String) : String :=
  let ext := pathSuffix name
  if ext = "" then name else String.mk (name.toList.take (name.length - ext.length))

/-- Python's `str.strip()` restricted to ASCII whitespace: drop leading
and trailing whitespace characters. -/
def py_strip (s : String) : String :=
  String.mk (((s.toList.dropWhile Char.isWhitespace).reverse.dropWhile Char.isWhitespace).reverse)

/-- The observable outcome of `clean_transcript`. -/
inductive CleanResult (ε : Type) where
  | cleaned (path : String) (text : String)
  | skipped (path : String)
  | transcriptNotFound
  | failed (e : ε)
  | exhausted

/-- `clean_transcript` from `transcription.py`: missing transcript fails
at once; an existing `<base>.clean.txt` short-circuits with no remote
call; otherwise the same retry loop as `transcribe_file` obtains the
cleaned text, which is stripped and written to the clean path. -/
def clean_transcript {ε : Type} (transcriptName : String)
    (transcriptExists cleanExists : Bool) (call : ℕ → Except ε String)
    (retries : ℕ) : CleanResult ε × ℕ × List ℕ :=
  if transcriptExists = false then (.transcriptNotFound, 0, [])
  else
    let cleanPath := get_base_filename transcriptName ++ ".clean.txt"
    if cleanExists then (.skipped cleanPath, 0, [])
    else
      match retry_go call 0 retries with
      | (.ok t, n, s) => (.cleaned cleanPath (py_strip t), n, s)
      | (.raised e, n, s) => (.failed e, n, s)
      | (.exhausted, n, s) => (.exhausted, n, s)

/-! ### A JSON value model for the metadata artifacts

`save_transcript` passes the metadata dictionary to `json.dump`; the
pipeline itself only ever observes the written file's existence and byte
size.  The serializer below renders a value in `json.dump`'s compact
shape (the `indent=2` pretty-printing only adds whitespace); the store
keeps the structured value, so reading an artifact back is exact. -/

mutual
inductive Json where
  | null
  | jbool (b : Bool)
  | jnum (n : ℤ)
  | jstr (s : String)
  | jarr (elems : JsonArr)
  | jobj (fields : JsonObj)
inductive JsonArr where
  | nil
  | cons (hd : Json) (tl : JsonArr)
inductive JsonObj where
  | nil
  | cons (key : String) (val : Json) (tl : JsonObj)
end

/-- JSON string escaping as `json.dump(..., ensure_ascii=False)` does it
for the characters the pipeline can produce. -/
def json_escape_char (c : Char) : String :=
  if c = '"' then "\\\""
  else if c = '\\' then "\\\\"
  else if c = '\n' then "\\n"
  else if c = '\t' then "\\t"
  else if c = '\r' then "\\r"
  else String.singleton c

/-- A JSON string literal: the escaped text between double quotes. -/
def json_quote (s : String) : String :=
  "\"" ++ String.join (s.toList.map json_escape_char) ++ "\""

mutual
/-- Render a JSON value the way `json.dump` serializes the metadata. -/
def jsonDump : Json → String
  | .null => "null"
  | .jbool b => if b then "true" else "false"
  | .jnum n => Int.repr n
  | .jstr s => json_quote s
  | .jarr es => "[" ++ jsonDumpArr es ++ "]"
  | .jobj fs => "\x7b" ++ jsonDumpObj fs ++ "\x7d"
/-- Render the comma-separated elements of a JSON array. -/
def jsonDumpArr : JsonArr → String
  | .nil => ""
  | .cons h .nil => jsonDump h
  | .cons h (.cons h2 t) => jsonDump h ++ ", " ++ jsonDumpArr (.cons h2 t)
/-- Render the comma-separated `"key": value` fields of a JSON object. -/
def jsonDumpObj : JsonObj → String
  | .nil => ""
  | .cons k v .nil => json_quote k ++ ": " ++ jsonDump v
  | .cons k v (.cons k2 v2 t) =>
    json_quote k ++ ": " ++ jsonDump v ++ ", " ++ jsonDumpObj (.cons k2 v2 t)
end

/-! ### `transcript.py`: the transcript store -/

/-- What a file in the transcript directory holds: raw bytes (any text
file, including a truncated artifact) or a serialized metadata value. -/
inductive FileData where
  | text (s : String)
  | jsonData (m : Json)

/-- The byte size `stat().st_size` reports for a stored file. -/
def FileData.size : FileData → ℕ
  | .text s => s.utf8ByteSize
  | .jsonData m => (jsonDump m).utf8ByteSize

/-- Look a file name up in a directory association list (newest entry
first, as written). -/
def fsLookup : List (String × FileData) → String → Option FileData
  | [], _ => none
  | p :: rest, k => if p.1 = k then some p.2 else fsLookup rest k

/-- Write (or overwrite) a file: the new entry shadows any older one. -/
def fsWrite (fs : List (String × FileData)) (k : String) (v : FileData) :
    List (String × FileData) :=
  (k, v) :: fs

/-- `check_existing_transcripts` from `transcript.py`: true only when
both `<base>.txt` and `<base>.json` exist and both have positive byte
size. -/
def check_existing_transcripts (fs : List (String × FileData)) (name : String) : Bool :=
  let base := get_base_filename name
  match fsLookup fs (base ++ ".txt"), fsLookup fs (base ++ ".json") with
  | some t, some j => decide (0 < t.size) && decide (0 < j.size)
  | _, _ => false

/-- The two distinct `RuntimeError`s of `save_transcript`'s post-write
verification: "Failed to save or verify transcript" and "... metadata". -/
inductive SaveError where
  | txtVerifyFailed
  | jsonVerifyFailed
deriving DecidableEq

/-- `save_transcript` from `transcript.py`: write `<base>.txt` with the
text and `<base>.json` with the serialized metadata, then re-check that
both files exist with non-zero size, raising on a failed check.  The
directory post-state is returned alongside, also on the error paths (the
writes themselves succeeded). -/
def save_transcript (fs : List (String × FileData)) (text : String)
    (metadata : Json) (originalName : String) :
    Except SaveError (String × String) × List (String × FileData) :=
  let base := get_base_filename originalName
  let txtPath := base ++ ".txt"
  let jsonPath := base ++ ".json"
  let fs1 := fsWrite fs txtPath (.text text)
  let fs2 := fsWrite fs1 jsonPath (.jsonData metadata)
  match fsLookup fs2 txtPath with
  | none => (.error .txtVerifyFailed, fs2)
  | some c =>
    if c.size = 0 then (.error .txtVerifyFailed, fs2)
    else
      match fsLookup fs2 jsonPath with
      | none => (.error .jsonVerifyFailed, fs2)
      | some c2 =>
        if c2.size = 0 then (.error .jsonVerifyFailed, fs2)
        else (.ok (txtPath, jsonPath), fs2)

/-! ### `transcript.py`: the series merge -/

/-- Maximal leading run of ASCII digits: the greedy `\d+`. -/
def leadingDigits : List Char → List Char
  | [] => []
  | c :: cs => if c.isDigit then c :: leadingDigits cs else []

/-- Decimal value of a digit run. -/
def digitsVal (l : List Char) : ℕ :=
  l.foldl (fun a c => a * 10 + (c.toNat - 48)) 0

/-- Does the list start with `art` followed by a digit?  Together with a
leading `p` this is a match site of the regex `part(\d+)`. -/
def isPartHead : List Char → Bool
  | 'a' :: 'r' :: 't' :: d :: _ => d.isDigit
  | _ => false

/-- The leftmost match of `re.search(r"part(\d+)", ...)`: the greedy
digit run after the first `part` that is followed by at least one
digit. -/
def findPartNumber : List Char → Option ℕ
  | [] => none
  | c :: cs =>
    if c = 'p' && isPartHead cs then some (digitsVal (leadingDigits (cs.drop 3)))
    else findPartNumber cs

/-- `get_part_number` from `transcript.py`: the captured integer, or
`-1` when the filename has no `part<digits>` token. -/
def get_part_number (filename : String) : ℤ :=
  match findPartNumber filename.toList with
  | some n => (n : ℤ)
  | none => -1

/-- Does the list match the anchored regex `_part\d+\.(clean\.)?txt`
exactly (to its end)? -/
def isSeriesSuffix (l : List Char) : Bool :=
  match l with
  | '_' :: 'p' :: 'a' :: 'r' :: 't' :: rest =>
    let ds := leadingDigits rest
    !ds.isEmpty &&
      (rest.drop ds.length == String.toList ".txt" ||
        rest.drop ds.length == String.toList ".clean.txt")
  | _ => false

/-- Remove the leftmost (anchored, hence unique) match of
`_part\d+\.(clean\.)?txt$`, keeping what stands before it. -/
def stripSeriesChars : List Char → List Char
  | [] => []
  | c :: cs => if isSeriesSuffix (c :: cs) then [] else c :: stripSeriesChars cs

/-- `get_series_name` from `transcript.py`:
`re.sub(r"_part\d+\.(clean\.)?txt$", "", filename)`. -/
def get_series_name (filename : String) : String :=
  String.mk (stripSeriesChars filename.toList)

/-- Does a name match the discovery glob `*part*.txt`: an occurrence of
`part` somewhere before a final `.txt`? -/
def any_part_txt_match (name : String) : Bool :=
  let l := name.toList
  decide ((String.toList ".txt") <:+ l) &&
    decide ((String.toList "part") <:+: l.take (l.length - 4))

/-- Does a name match the raw-variant selection for a series:
glob `<series>_part*.txt`, excluding names ending in `.clean.txt`? -/
def raw_part_match (series name : String) : Bool :=
  glob_match (series ++ "_part") ".txt" name &&
    !(decide ((String.toList ".clean.txt") <:+ name.toList))

/-- Does a name match the cleaned-variant selection for a series:
glob `<series>_part*.clean.txt`? -/
def clean_part_match (series name : String) : Bool :=
  glob_match (series ++ "_part") ".clean.txt" name

/-- The sort key of the merge: ascending `get_part_number` of the file
name.  Python's `sorted` is stable, as is `List.insertionSort`. -/
def part_le (a b : String × String) : Prop :=
  get_part_number a.1 ≤ get_part_number b.1

instance : DecidableRel part_le :=
  fun a b => inferInstanceAs (Decidable (get_part_number a.1 ≤ get_part_number b.1))

instance : IsTotal (String × String) part_le := ⟨fun _ _ => le_total _ _⟩

instance : IsTrans (String × String) part_le := ⟨fun _ _ _ h1 h2 => le_trans h1 h2⟩

/-- The files one variant of a series merge reads, in merge order:
the directory entries selected by `keep`, sorted by part number. -/
def select_part_files (dir : List (String × String)) (keep : String → Bool) :
    List (String × String) :=
  List.insertionSort part_le (dir.filter (fun p => keep p.1))

/-- One variant (raw or cleaned) of the per-series merge: read the
selected files in part order, strip each content, drop the empty ones,
and join the survivors with a blank line; `none` when there is nothing
to write. -/
def merge_variant (dir : List (String × String)) (keep : String → Bool) :
    Option String :=
  let files := select_part_files dir keep
  if files = [] then none
  else
    let contents := (files.map (fun p => py_strip p.2)).filter (fun c => decide (c ≠ ""))
    if contents = [] then none
    else some (String.intercalate "\n\n" contents)

/-- `merge_transcripts` from `transcript.py`: discover the series names
from `*part*.txt`, drop the empty name, and for each series in sorted
order merge the raw variant into `<series>.txt` and the cleaned variant
into `<series>.clean.txt`, skipping a variant with nothing to write.
The result is the list of written files. -/
def merge_transcripts (dir : List (String × String)) : List (String × String) :=
  let allFiles := dir.filter (fun p => any_part_txt_match p.1)
  let seriesNames :=
    ((allFiles.map (fun p => get_series_name p.1)).filter (fun s => decide (s ≠ ""))).dedup
  let sortedNames := List.insertionSort str_le seriesNames
  sortedNames.flatMap (fun s =>
    (match merge_variant dir (raw_part_match s) with
     | some c => [(s ++ ".txt", c)]
     | none => []) ++
    (match merge_variant dir (clean_part_match s) with
     | some c => [(s ++ ".clean.txt", c)]
     | none => []))

/-! ### Claim theorems -/

/-- C1: for every audio file whose probed bitrate is a positive integer
and positive ceilings `MAX_SPLIT_SIZE_MB` and `MAX_SPLIT_DURATION`,
`split_audio` computes the target segment duration as
`min((MAX_SPLIT_SIZE_MB * 8 * 1024 * 1024) / bitrate, MAX_SPLIT_DURATION)`,
and this duration is strictly positive. -/
theorem C1_segment_duration_formula (cfg : AudioConfig) (bitrate : ℤ)
    (hb : 0 < bitrate) (hs : 0 < cfg.MAX_SPLIT_SIZE_MB)
    (hd : 0 < cfg.MAX_SPLIT_DURATION) :
    segment_duration cfg bitrate =
      min (cfg.MAX_SPLIT_SIZE_MB * 8 * 1024 * 1024 / (bitrate : ℚ))
        cfg.MAX_SPLIT_DURATION ∧
    0 < segment_duration cfg bitrate := by
  refine ⟨rfl, ?_⟩
  have hbq : (0 : ℚ) < (bitrate : ℚ) := by exact_mod_cast hb
  have hnum : 0 < cfg.MAX_SPLIT_SIZE_MB * 8 * 1024 * 1024 := by
    have h8 : (0 : ℚ) < 8 := by norm_num
    have hk : (0 : ℚ) < 1024 := by norm_num
    exact mul_pos (mul_pos (mul_pos hs h8) hk) hk
  have h1 : 0 < size_based_duration cfg.MAX_SPLIT_SIZE_MB bitrate :=
    div_pos hnum hbq
  exact lt_min h1 hd

/-- Witness for C1 at the default configuration and a 128 kbit/s file. -/
theorem C1_segment_duration_formula_witness :
    (0 : ℤ) < 128000 ∧ 0 < ({} : AudioConfig).MAX_SPLIT_SIZE_MB ∧
    0 < ({} : AudioConfig).MAX_SPLIT_DURATION ∧
    (segment_duration {} 128000 =
        min (({} : AudioConfig).MAX_SPLIT_SIZE_MB * 8 * 1024 * 1024 /
            ((128000 : ℤ) : ℚ)) ({} : AudioConfig).MAX_SPLIT_DURATION ∧
      0 < segment_duration {} 128000) :=
  ⟨by decide, by decide, by decide,
    C1_segment_duration_formula {} 128000 (by decide) (by decide) (by decide)⟩

/-- C2: when split files for the stem already exist, `split_audio`
returns the lexicographically sorted existing list unchanged without
invoking the segmenter, and a second call on the resulting state returns
the identical list, again with no segmenter invocation. -/
theorem C2_split_is_idempotent (cfg : AudioConfig) (stem : String) (w : SplitWorld)
    (h : get_existing_splits stem w.splitsDir ≠ []) :
    split_audio cfg stem w = (.ok (get_existing_splits stem w.splitsDir), w, 0) ∧
    split_audio cfg stem (split_audio cfg stem w).2.1 =
      (.ok (get_existing_splits stem w.splitsDir), w, 0) ∧
    List.Sorted str_le (get_existing_splits stem w.splitsDir) := by
  have h1 : split_audio cfg stem w = (.ok (get_existing_splits stem w.splitsDir), w, 0) := by
    unfold split_audio
    rw [if_neg h]
  refine ⟨h1, ?_, ?_⟩
  · rw [h1]
    exact h1
  · unfold get_existing_splits
    exact List.sorted_insertionSort str_le _

/-- Witness for C2 on a directory already holding two splits of `a`. -/
theorem C2_split_is_idempotent_witness :
    get_existing_splits "a" (SplitWorld.mk ["b.mp3", "a_part001.mp3", "a_part000.mp3"]
        true (some 128000) (some 10) (fun _ => [])).splitsDir ≠ [] ∧
    (split_audio {} "a" (SplitWorld.mk ["b.mp3", "a_part001.mp3", "a_part000.mp3"]
          true (some 128000) (some 10) (fun _ => [])) =
        (.ok (get_existing_splits "a"
            (SplitWorld.mk ["b.mp3", "a_part001.mp3", "a_part000.mp3"]
              true (some 128000) (some 10) (fun _ => [])).splitsDir),
          SplitWorld.mk ["b.mp3", "a_part001.mp3", "a_part000.mp3"]
            true (some 128000) (some 10) (fun _ => []), 0) ∧
      split_audio {} "a" (split_audio {} "a"
          (SplitWorld.mk ["b.mp3", "a_part001.mp3", "a_part000.mp3"]
            true (some 128000) (some 10) (fun _ => []))).2.1 =
        (.ok (get_existing_splits "a"
            (SplitWorld.mk ["b.mp3", "a_part001.mp3", "a_part000.mp3"]
              true (some 128000) (some 10) (fun _ => [])).splitsDir),
          SplitWorld.mk ["b.mp3", "a_part001.mp3", "a_part000.mp3"]
            true (some 128000) (some 10) (fun _ => []), 0) ∧
      List.Sorted str_le (get_existing_splits "a"
          (SplitWorld.mk ["b.mp3", "a_part001.mp3", "a_part000.mp3"]
            true (some 128000) (some 10) (fun _ => [])).splitsDir)) :=
  ⟨by decide,
    C2_split_is_idempotent {} "a"
      (SplitWorld.mk ["b.mp3", "a_part001.mp3", "a_part000.mp3"]
        true (some 128000) (some 10) (fun _ => [])) (by decide)⟩

/-- C3: a missing or non-positive probed bit rate makes `split_audio`
fail with the bitrate-naming validation error, with the segmenter never
invoked; and any bitrate that survives validation (the only value the
segment-duration division ever sees) is strictly positive, so the
division cannot divide by zero. -/
theorem C3_bitrate_validated_before_division :
    (∀ (cfg : AudioConfig) (stem : String) (w : SplitWorld),
        get_existing_splits stem w.splitsDir = [] →
        w.sourceIsFile = true →
        (w.probeBitrate = none ∨ ∃ b, w.probeBitrate = some b ∧ b ≤ 0) →
        split_audio cfg stem w =
          (.error (.metadata .invalidBitrate),
            { w with splitsDir := cleanup_splits stem w.splitsDir }, 0)) ∧
    (∀ (br : Option ℤ) (d : Option ℚ) (b : ℤ) (dur : ℚ),
        validate_audio_metadata br d = .ok (b, dur) → 0 < b) := by
  constructor
  · intro cfg stem w hempty hfile hbad
    have hval : validate_audio_metadata w.probeBitrate w.probeDuration =
        .error .invalidBitrate := by
      rcases hbad with hnone | ⟨b, hb, hle⟩
      · rw [hnone]
        rfl
      · rw [hb]
        simp [validate_audio_metadata, hle]
    unfold split_audio
    rw [if_pos hempty, hfile]
    simp [hval]
  · intro br d b dur h
    cases br with
    | none => simp [validate_audio_metadata] at h
    | some b0 =>
      by_cases hb0 : b0 ≤ 0
      · simp [validate_audio_metadata, hb0] at h
      · cases d with
        | none => simp [validate_audio_metadata, hb0] at h
        | some d0 =>
          by_cases hd0 : d0 ≤ 0
          · simp [validate_audio_metadata, hb0, hd0] at h
          · simp [validate_audio_metadata, hb0, hd0] at h
            omega

/-- Witness for C3: a probed bitrate of 0 is rejected as an invalid
bitrate with no segmenter call, and a validated bitrate is positive. -/
theorem C3_bitrate_validated_before_division_witness :
    split_audio {} "a" (SplitWorld.mk [] true (some 0) (some 10) (fun _ => [])) =
      (.error (.metadata .invalidBitrate),
        { SplitWorld.mk [] true (some 0) (some 10) (fun _ => []) with
            splitsDir := cleanup_splits "a"
              (SplitWorld.mk [] true (some 0) (some 10) (fun _ => [])).splitsDir }, 0) ∧
    0 < (5 : ℤ) :=
  ⟨C3_bitrate_validated_before_division.1 {} "a"
      (SplitWorld.mk [] true (some 0) (some 10) (fun _ => [])) rfl rfl
      (Or.inr ⟨0, rfl, le_refl 0⟩),
    C3_bitrate_validated_before_division.2 (some 5) (some 10) 5 10 rfl⟩

/-- C4: the merge reads each variant's files in ascending part-number
order (the selection is sorted by `get_part_number`), so parts
[5, 2, 8, 1] merge as [1, 2, 5, 8]; missing indices contribute nothing
and cause no error (parts [0, 2, 4] merge to exactly those three
paragraphs); and a name without a parseable part number gets key `-1`
and therefore sorts first. -/
theorem C4_merge_order_and_gap_tolerance :
    (∀ (dir : List (String × String)) (keep : String → Bool),
        List.Sorted part_le (select_part_files dir keep)) ∧
    merge_transcripts [("a_part005.txt", "C5"), ("a_part002.txt", "C2"),
        ("a_part008.txt", "C8"), ("a_part001.txt", "C1")] =
      [("a.txt", "C1\n\nC2\n\nC5\n\nC8")] ∧
    merge_transcripts [("a_part000.txt", "C0"), ("a_part002.txt", "C2"),
        ("a_part004.txt", "C4")] = [("a.txt", "C0\n\nC2\n\nC4")] ∧
    merge_transcripts [("a_part002.txt", "C2"), ("a_partX.txt", "M")] =
      [("a.txt", "M\n\nC2")] ∧
    get_part_number "a_partX.txt" = -1 := by
  refine ⟨?_, by decide, by decide, by decide, by decide⟩
  intro dir keep
  unfold select_part_files
  exact List.sorted_insertionSort part_le _

/-- C7: raw and cleaned variants merge independently — the raw selection
never admits a `.clean.txt` name and the cleaned selection admits only
such names (so with raw+clean parts 0 and 2 and raw-only part 1 the raw
merge holds all three and the cleaned merge holds 0 and 2) — and a
variant with no surviving content writes nothing. -/
theorem C7_merge_separates_raw_and_clean :
    merge_transcripts [("a_part000.txt", "R0"), ("a_part000.clean.txt", "K0"),
        ("a_part001.txt", "R1"), ("a_part002.txt", "R2"),
        ("a_part002.clean.txt", "K2")] =
      [("a.txt", "R0\n\nR1\n\nR2"), ("a.clean.txt", "K0\n\nK2")] ∧
    (∀ series name : String, raw_part_match series name = true →
        ¬ String.toList ".clean.txt" <:+ name.toList) ∧
    (∀ series name : String, clean_part_match series name = true →
        String.toList ".clean.txt" <:+ name.toList) ∧
    (∀ (dir : List (String × String)) (keep : String → Bool),
        ((select_part_files dir keep).map (fun p => py_strip p.2)).filter
            (fun c => decide (c ≠ "")) = [] →
        merge_variant dir keep = none) := by
  refine ⟨by decide, ?_, ?_, ?_⟩
  · intro series name h
    unfold raw_part_match at h
    rcases Bool.and_eq_true .. |>.mp h with ⟨-, h2⟩
    simpa using h2
  · intro series name h
    unfold clean_part_match glob_match at h
    rcases Bool.and_eq_true .. |>.mp h with ⟨-, h2⟩
    have h3 : String.toList ".clean.txt" <:+
        name.toList.drop (series ++ "_part").toList.length := of_decide_eq_true h2
    exact h3.trans (List.drop_suffix _ _)
  · intro dir keep h
    unfold merge_variant
    by_cases hf : select_part_files dir keep = []
    · rw [if_pos hf]
    · rw [if_neg hf]
      simp only [h]
      rfl

/-- Witness for C7's quantified parts at concrete names and an empty
directory. -/
theorem C7_merge_separates_raw_and_clean_witness :
    (¬ String.toList ".clean.txt" <:+ ("a_part000.txt" : String).toList) ∧
    (String.toList ".clean.txt" <:+ ("a_part000.clean.txt" : String).toList) ∧
    merge_variant [] (raw_part_match "a") = none :=
  ⟨C7_merge_separates_raw_and_clean.2.1 "a" "a_part000.txt" (by decide),
    C7_merge_separates_raw_and_clean.2.2.1 "a" "a_part000.clean.txt" (by decide),
    C7_merge_separates_raw_and_clean.2.2.2 [] (raw_part_match "a") rfl⟩

/-- C6: the transcript-existence check is true exactly when both the
`.txt` and the `.json` artifact for the file's base name exist with
strictly positive byte size; concretely, a zero-byte `.txt` makes it
false although the path exists. -/
theorem C6_existence_requires_nonzero_size :
    (∀ (fs : List (String × FileData)) (name : String),
        check_existing_transcripts fs name = true ↔
          (∃ t, fsLookup fs (get_base_filename name ++ ".txt") = some t ∧
              0 < t.size) ∧
          (∃ j, fsLookup fs (get_base_filename name ++ ".json") = some j ∧
              0 < j.size)) ∧
    check_existing_transcripts
        [("a.txt", FileData.text ""), ("a.json", FileData.text "x")] "a.wav" = false ∧
    fsLookup [("a.txt", FileData.text ""), ("a.json", FileData.text "x")] "a.txt" =
      some (FileData.text "") := by
  refine ⟨?_, rfl, rfl⟩
  intro fs name
  cases h1 : fsLookup fs (get_base_filename name ++ ".txt") with
  | none => simp [check_existing_transcripts, h1]
  | some t =>
    cases h2 : fsLookup fs (get_base_filename name ++ ".json") with
    | none => simp [check_existing_transcripts, h1, h2]
    | some j => simp [check_existing_transcripts, h1, h2]

/-! ### Helper lemmas on byte sizes and the JSON rendering -/

theorem utf8ByteSize_pos {s : String} (h : s ≠ "") : 0 < s.utf8ByteSize := by
  cases s with
  | mk data =>
    have hd : data ≠ [] := fun h0 => h (by rw [h0])
    have : String.utf8ByteSize ⟨data⟩ = String.utf8Len data := rfl
    rw [this]
    exact Nat.pos_of_ne_zero (fun h0 => hd (String.utf8Len_eq_zero.mp h0))

theorem length_pos_ne_empty {s : String} (h : 0 < s.length) : s ≠ "" := by
  intro h0
  rw [h0] at h
  simp at h

theorem toDigitsCore_length_ge (b : ℕ) :
    ∀ (f n : ℕ) (ds : List Char), ds.length ≤ (Nat.toDigitsCore b f n ds).length := by
  intro f
  induction f with
  | zero => intro n ds; simp [Nat.toDigitsCore]
  | succ f ih =>
    intro n ds
    simp only [Nat.toDigitsCore]
    by_cases h : n / b = 0
    · simp [h]
    · rw [if_neg h]
      calc ds.length ≤ (Nat.digitChar (n % b) :: ds).length := by simp
        _ ≤ _ := ih (n / b) _

theorem toDigits_length_pos (b n : ℕ) : 0 < (Nat.toDigits b n).length := by
  show 0 < (Nat.toDigitsCore b (n + 1) n []).length
  simp only [Nat.toDigitsCore]
  by_cases h : n / b = 0
  · simp [h]
  · rw [if_neg h]
    calc 0 < (Nat.digitChar (n % b) :: []).length := by simp
      _ ≤ _ := toDigitsCore_length_ge b n (n / b) _

theorem nat_repr_ne_empty (n : ℕ) : Nat.repr n ≠ "" := by
  apply length_pos_ne_empty
  show 0 < (Nat.toDigits 10 n).asString.length
  rw [List.length_asString]
  exact toDigits_length_pos 10 n

theorem int_repr_ne_empty (n : ℤ) : Int.repr n ≠ "" := by
  cases n with
  | ofNat m => exact nat_repr_ne_empty m
  | negSucc m =>
    apply length_pos_ne_empty
    show 0 < ("-" ++ Nat.repr (m + 1)).length
    rw [String.length_append]
    have h1 : 0 < ("-" : String).length := by decide
    omega

theorem string_length_pos {a : String} (ha : a ≠ "") : 0 < a.length := by
  cases a with
  | mk data =>
    cases data with
    | nil => exact absurd rfl ha
    | cons x xs => simp [String.length]

theorem string_append3_ne_empty (a b c : String) (ha : a ≠ "") :
    a ++ b ++ c ≠ "" := by
  apply length_pos_ne_empty
  rw [String.length_append, String.length_append]
  have h1 : 0 < a.length := string_length_pos ha
  omega

theorem jsonDump_ne_empty : ∀ m : Json, jsonDump m ≠ "" := by
  intro m
  cases m with
  | null => decide
  | jbool b => cases b <;> decide
  | jnum n => exact int_repr_ne_empty n
  | jstr s =>
    show json_quote s ≠ ""
    unfold json_quote
    exact string_append3_ne_empty "\"" _ "\"" (by decide)
  | jarr es =>
    show "[" ++ jsonDumpArr es ++ "]" ≠ ""
    exact string_append3_ne_empty "[" _ "]" (by decide)
  | jobj fs =>
    show "\x7b" ++ jsonDumpObj fs ++ "\x7d" ≠ ""
    exact string_append3_ne_empty "\x7b" _ "\x7d" (by decide)

theorem json_path_ne_txt_path (base : String) : base ++ ".json" ≠ base ++ ".txt" := by
  intro h
  have h2 : base.data ++ (".json" : String).data = base.data ++ (".txt" : String).data :=
    congrArg String.data h
  have h3 := List.append_cancel_left h2
  exact absurd h3 (by decide)

/-- C8: saving a transcript for `A.b.wav` strips only the final `.wav`,
producing artifacts literally named `A.b.txt` and `A.b.json`, and
reading them back yields the original text and metadata unchanged. -/
theorem C8_save_roundtrip_keeps_inner_periods (fs : List (String × FileData))
    (text : String) (metadata : Json) (h : text ≠ "") :
    ∃ fs2, save_transcript fs text metadata "A.b.wav" =
        (.ok ("A.b.txt", "A.b.json"), fs2) ∧
      fsLookup fs2 "A.b.txt" = some (.text text) ∧
      fsLookup fs2 "A.b.json" = some (.jsonData metadata) := by
  have e1 : fsLookup (("A.b.json", FileData.jsonData metadata) ::
      ("A.b.txt", FileData.text text) :: fs) "A.b.txt" = some (FileData.text text) := by
    simp [fsLookup]
  have e2 : fsLookup (("A.b.json", FileData.jsonData metadata) ::
      ("A.b.txt", FileData.text text) :: fs) "A.b.json" =
      some (FileData.jsonData metadata) := by
    simp [fsLookup]
  have htxt : ¬ (FileData.text text).size = 0 := by
    have := utf8ByteSize_pos h
    simp only [FileData.size]
    omega
  have hjson : ¬ (FileData.jsonData metadata).size = 0 := by
    have := utf8ByteSize_pos (jsonDump_ne_empty metadata)
    simp only [FileData.size]
    omega
  refine ⟨("A.b.json", FileData.jsonData metadata) ::
      ("A.b.txt", FileData.text text) :: fs, ?_, e1, e2⟩
  have hbase : get_base_filename "A.b.wav" = "A.b" := rfl
  have happ1 : ("A.b" : String) ++ ".txt" = "A.b.txt" := rfl
  have happ2 : ("A.b" : String) ++ ".json" = "A.b.json" := rfl
  simp only [save_transcript, hbase, fsWrite, happ1, happ2, e1, e2]
  rw [if_neg htxt, if_neg hjson]

/-- Witness for C8 with a concrete non-empty transcript. -/
theorem C8_save_roundtrip_keeps_inner_periods_witness :
    ("hello" : String) ≠ "" ∧
    ∃ fs2, save_transcript [] "hello" Json.null "A.b.wav" =
        (.ok ("A.b.txt", "A.b.json"), fs2) ∧
      fsLookup fs2 "A.b.txt" = some (.text "hello") ∧
      fsLookup fs2 "A.b.json" = some (.jsonData Json.null) :=
  ⟨by decide, C8_save_roundtrip_keeps_inner_periods [] "hello" Json.null (by decide)⟩

/-- C10: whenever `save_transcript` returns a path pair, both artifacts
exist with strictly positive byte size; saving the empty string as the
text fails the post-write verification with the transcript-verify error
even though both writes succeeded. -/
theorem C10_save_never_returns_with_empty_artifact :
    (∀ (fs : List (String × FileData)) (text : String) (metadata : Json)
        (name p q : String) (fs2 : List (String × FileData)),
        save_transcript fs text metadata name = (.ok (p, q), fs2) →
        (∃ c, fsLookup fs2 p = some c ∧ 0 < c.size) ∧
        (∃ c, fsLookup fs2 q = some c ∧ 0 < c.size)) ∧
    (∀ (fs : List (String × FileData)) (metadata : Json) (name : String),
        save_transcript fs "" metadata name =
          (.error .txtVerifyFailed,
            fsWrite (fsWrite fs (get_base_filename name ++ ".txt") (.text ""))
              (get_base_filename name ++ ".json") (.jsonData metadata))) := by
  have e1 : ∀ (fs : List (String × FileData)) (base : String) (t : String) (m : Json),
      fsLookup ((base ++ ".json", FileData.jsonData m) ::
        (base ++ ".txt", FileData.text t) :: fs) (base ++ ".txt") =
        some (FileData.text t) := by
    intro fs base t m
    simp only [fsLookup]
    rw [if_neg (json_path_ne_txt_path base)]
    simp
  have e2 : ∀ (fs : List (String × FileData)) (base : String) (t : String) (m : Json),
      fsLookup ((base ++ ".json", FileData.jsonData m) ::
        (base ++ ".txt", FileData.text t) :: fs) (base ++ ".json") =
        some (FileData.jsonData m) := by
    intro fs base t m
    simp [fsLookup]
  constructor
  · intro fs text metadata name p q fs2 h
    simp only [save_transcript, fsWrite, e1, e2] at h
    by_cases ht : (FileData.text text).size = 0
    · rw [if_pos ht] at h
      simp at h
    · rw [if_neg ht] at h
      by_cases hj : (FileData.jsonData metadata).size = 0
      · rw [if_pos hj] at h
        simp at h
      · rw [if_neg hj] at h
        have hfst := congrArg Prod.fst h
        have hsnd := congrArg Prod.snd h
        simp only [Prod.fst, Prod.snd] at hfst hsnd
        rw [Except.ok.injEq, Prod.mk.injEq] at hfst
        obtain ⟨hp, hq⟩ := hfst
        subst hp
        subst hq
        rw [← hsnd]
        exact ⟨⟨FileData.text text, e1 fs _ text metadata, Nat.pos_of_ne_zero ht⟩,
          ⟨FileData.jsonData metadata, e2 fs _ text metadata, Nat.pos_of_ne_zero hj⟩⟩
  · intro fs metadata name
    simp only [save_transcript, fsWrite, e1]
    rw [if_pos (show (FileData.text "").size = 0 from rfl)]

/-- Witness for C10: a successful save leaves two non-empty artifacts,
and the empty-text save fails verification. -/
theorem C10_save_never_returns_with_empty_artifact_witness :
    ((∃ c, fsLookup [("x.json", FileData.jsonData Json.null),
          ("x.txt", FileData.text "hi")] "x.txt" = some c ∧ 0 < c.size) ∧
      (∃ c, fsLookup [("x.json", FileData.jsonData Json.null),
          ("x.txt", FileData.text "hi")] "x.json" = some c ∧ 0 < c.size)) ∧
    save_transcript [] "" Json.null "x.wav" =
      (.error .txtVerifyFailed,
        fsWrite (fsWrite [] (get_base_filename "x.wav" ++ ".txt") (.text ""))
          (get_base_filename "x.wav" ++ ".json") (.jsonData Json.null)) :=
  ⟨C10_save_never_returns_with_empty_artifact.1 [] "hi" Json.null "x.wav"
      "x.txt" "x.json"
      [("x.json", FileData.jsonData Json.null), ("x.txt", FileData.text "hi")]
      (by rfl),
    C10_save_never_returns_with_empty_artifact.2 [] Json.null "x.wav"⟩

/-! ### Retry-loop lemmas -/

/-- The back-off sleeps of a run that starts at attempt `attempt` and
fails `n` times with a retry still available: `30 * 2 ^ a` seconds for
each failing attempt `a`. -/
def backoff_sched (attempt n : ℕ) : List ℕ :=
  (List.range n).map (fun j => 30 * 2 ^ (attempt + j))

theorem backoff_sched_succ (attempt n : ℕ) :
    backoff_sched attempt (n + 1) = 30 * 2 ^ attempt :: backoff_sched (attempt + 1) n := by
  unfold backoff_sched
  rw [List.range_succ_eq_map, List.map_cons, List.map_map]
  have h1 : (fun j => 30 * 2 ^ (attempt + j)) 0 = 30 * 2 ^ attempt := by norm_num
  have h2 : ((fun j => 30 * 2 ^ (attempt + j)) ∘ Nat.succ) =
      (fun j => 30 * 2 ^ (attempt + 1 + j)) := by
    funext j
    show 30 * 2 ^ (attempt + (j + 1)) = 30 * 2 ^ (attempt + 1 + j)
    have hexp : attempt + (j + 1) = attempt + 1 + j := by omega
    rw [hexp]
  rw [Nat.add_zero, h2]

theorem retry_go_ok_run {ε α : Type} (call : ℕ → Except ε α) (a : α) :
    ∀ (fuel attempt : ℕ), 1 ≤ fuel →
      (∀ j, j + 1 < fuel → ∃ e, call (attempt + j) = .error e) →
      call (attempt + fuel - 1) = .ok a →
      retry_go call attempt fuel = (.ok a, fuel, backoff_sched attempt (fuel - 1)) := by
  intro fuel
  induction fuel with
  | zero => intro attempt h; omega
  | succ f ih =>
    intro attempt _ hfail hok
    cases f with
    | zero =>
      have h0 : call attempt = .ok a := by
        have : attempt + 1 - 1 = attempt := by omega
        rw [this] at hok
        exact hok
      have hstep : retry_go call attempt 1 =
          match call attempt with
          | .ok a0 => (.ok a0, 1, [])
          | .error e => (.raised e, 1, []) := rfl
      rw [hstep, h0]
      rfl
    | succ f2 =>
      obtain ⟨e, he⟩ := hfail 0 (by omega)
      rw [Nat.add_zero] at he
      have ihres := ih (attempt + 1) (by omega)
        (fun j hj => by
          obtain ⟨e0, he0⟩ := hfail (j + 1) (by omega)
          refine ⟨e0, ?_⟩
          have : attempt + 1 + j = attempt + (j + 1) := by omega
          rw [this]
          exact he0)
        (by
          have : attempt + 1 + (f2 + 1) - 1 = attempt + (f2 + 1 + 1) - 1 := by omega
          rw [this]
          exact hok)
      have hstep : retry_go call attempt (f2 + 1 + 1) =
          match call attempt with
          | .ok a0 => (.ok a0, 1, [])
          | .error e0 =>
            if f2 + 1 = 0 then (.raised e0, 1, [])
            else
              ((retry_go call (attempt + 1) (f2 + 1)).1,
                (retry_go call (attempt + 1) (f2 + 1)).2.1 + 1,
                30 * 2 ^ attempt :: (retry_go call (attempt + 1) (f2 + 1)).2.2) := rfl
      simp only [hstep, he]
      rw [if_neg (by omega : ¬ f2 + 1 = 0)]
      rw [ihres]
      have hsched : backoff_sched attempt (f2 + 1 + 1 - 1) =
          30 * 2 ^ attempt :: backoff_sched (attempt + 1) (f2 + 1 - 1) := by
        have h1 : f2 + 1 + 1 - 1 = (f2 + 1 - 1) + 1 := by omega
        rw [h1, backoff_sched_succ]
      rw [hsched]

theorem retry_go_all_fail_run {ε α : Type} (call : ℕ → Except ε α) :
    ∀ (fuel attempt : ℕ) (e : ε), 1 ≤ fuel →
      (∀ j, j < fuel → ∃ e0, call (attempt + j) = .error e0) →
      call (attempt + fuel - 1) = .error e →
      retry_go call attempt fuel = (.raised e, fuel, backoff_sched attempt (fuel - 1)) := by
  intro fuel
  induction fuel with
  | zero => intro attempt e h; omega
  | succ f ih =>
    intro attempt e _ hfail hlast
    cases f with
    | zero =>
      have h0 : call attempt = .error e := by
        have : attempt + 1 - 1 = attempt := by omega
        rw [this] at hlast
        exact hlast
      have hstep : retry_go call attempt 1 =
          match call attempt with
          | .ok a0 => (.ok a0, 1, [])
          | .error e0 => (.raised e0, 1, []) := rfl
      rw [hstep, h0]
      rfl
    | succ f2 =>
      obtain ⟨e0, he0⟩ := hfail 0 (by omega)
      rw [Nat.add_zero] at he0
      have ihres := ih (attempt + 1) e (by omega)
        (fun j hj => by
          obtain ⟨e1, he1⟩ := hfail (j + 1) (by omega)
          refine ⟨e1, ?_⟩
          have : attempt + 1 + j = attempt + (j + 1) := by omega
          rw [this]
          exact he1)
        (by
          have : attempt + 1 + (f2 + 1) - 1 = attempt + (f2 + 1 + 1) - 1 := by omega
          rw [this]
          exact hlast)
      have hstep : retry_go call attempt (f2 + 1 + 1) =
          match call attempt with
          | .ok a0 => (.ok a0, 1, [])
          | .error e1 =>
            if f2 + 1 = 0 then (.raised e1, 1, [])
            else
              ((retry_go call (attempt + 1) (f2 + 1)).1,
                (retry_go call (attempt + 1) (f2 + 1)).2.1 + 1,
                30 * 2 ^ attempt :: (retry_go call (attempt + 1) (f2 + 1)).2.2) := rfl
      simp only [hstep, he0]
      rw [if_neg (by omega : ¬ f2 + 1 = 0)]
      rw [ihres]
      have hsched : backoff_sched attempt (f2 + 1 + 1 - 1) =
          30 * 2 ^ attempt :: backoff_sched (attempt + 1) (f2 + 1 - 1) := by
        have h1 : f2 + 1 + 1 - 1 = (f2 + 1 - 1) + 1 := by omega
        rw [h1, backoff_sched_succ]
      rw [hsched]

/-- C5: with retry budget `N ≥ 1`, a remote capability that fails on the
first `N - 1` invocations and succeeds on the N-th makes the stage
(`transcribe_file`, and likewise `clean_transcript`) return the
successful result after exactly `N` invocations with sleeps
`30 * 2 ^ attempt` between attempts; if all `N` invocations fail, the
last attempt's own error is re-raised (not the generic wrapper) after
exactly `N` invocations. -/
theorem C5_retry_backoff_policy {ε : Type} (call : ℕ → Except ε String) (N : ℕ)
    (tname : String) (hN : 1 ≤ N) :
    (∀ a : String, (∀ i, i + 1 < N → ∃ e, call i = .error e) →
        call (N - 1) = .ok a →
        transcribe_file true 0 call N =
          (.ok a, N, (List.range (N - 1)).map (fun i => 30 * 2 ^ i)) ∧
        clean_transcript tname true false call N =
          (.cleaned (get_base_filename tname ++ ".clean.txt") (py_strip a), N,
            (List.range (N - 1)).map (fun i => 30 * 2 ^ i))) ∧
    (∀ e : ε, (∀ i, i < N → ∃ e0, call i = .error e0) →
        call (N - 1) = .error e →
        transcribe_file true 0 call N =
          (.remoteFailure e, N, (List.range (N - 1)).map (fun i => 30 * 2 ^ i)) ∧
        clean_transcript tname true false call N =
          (.failed e, N, (List.range (N - 1)).map (fun i => 30 * 2 ^ i))) := by
  have hb : backoff_sched 0 (N - 1) = (List.range (N - 1)).map (fun i => 30 * 2 ^ i) := by
    unfold backoff_sched
    apply List.map_congr_left
    intro a _
    rw [Nat.zero_add]
  have hsize : ¬ MAX_FILE_SIZE_MB ≤ ((0 : ℕ) : ℚ) / (1024 * 1024) := by
    norm_num [MAX_FILE_SIZE_MB]
  constructor
  · intro a hfail hok
    have hr : retry_go call 0 N = (.ok a, N, backoff_sched 0 (N - 1)) :=
      retry_go_ok_run call a N 0 hN
        (fun j hj => by rw [Nat.zero_add]; exact hfail j hj)
        (by rw [Nat.zero_add]; exact hok)
    constructor
    · unfold transcribe_file
      rw [if_neg (by decide), if_neg hsize, hr]
      rw [hb]
    · unfold clean_transcript
      rw [if_neg (by decide), if_neg (by decide), hr]
      rw [hb]
  · intro e hfail hlast
    have hr : retry_go call 0 N = (.raised e, N, backoff_sched 0 (N - 1)) :=
      retry_go_all_fail_run call N 0 e hN
        (fun j hj => by rw [Nat.zero_add]; exact hfail j hj)
        (by rw [Nat.zero_add]; exact hlast)
    constructor
    · unfold transcribe_file
      rw [if_neg (by decide), if_neg hsize, hr]
      rw [hb]
    · unfold clean_transcript
      rw [if_neg (by decide), if_neg (by decide), hr]
      rw [hb]

/-- Witness for C5 at budget 2: one failure then success invokes the
capability exactly twice with one 30-second sleep; two failures re-raise
the second failure's error (1, not 0) after exactly two invocations. -/
theorem C5_retry_backoff_policy_witness :
    (1 ≤ 2) ∧
    transcribe_file true 0
        (fun i => if i = 0 then Except.error (0 : ℕ) else Except.ok "T") 2 =
      (.ok "T", 2, [30]) ∧
    clean_transcript "x.txt" true false
        (fun i => if i = 0 then Except.error (0 : ℕ) else Except.ok "T") 2 =
      (.cleaned "x.clean.txt" "T", 2, [30]) ∧
    transcribe_file true 0 (fun i => (Except.error i : Except ℕ String)) 2 =
      (.remoteFailure 1, 2, [30]) ∧
    clean_transcript "x.txt" true false
        (fun i => (Except.error i : Except ℕ String)) 2 =
      (.failed 1, 2, [30]) := by
  have h1 := (C5_retry_backoff_policy
      (fun i => if i = 0 then Except.error (0 : ℕ) else Except.ok "T") 2 "x.txt"
      (by decide)).1 "T"
      (fun i hi => ⟨0, by
        have h0 : i = 0 := by omega
        subst h0
        rfl⟩) rfl
  have h2 := (C5_retry_backoff_policy
      (fun i => (Except.error i : Except ℕ String)) 2 "x.txt"
      (by decide)).2 1 (fun i _ => ⟨i, rfl⟩) rfl
  refine ⟨by decide, ?_, ?_, ?_, ?_⟩
  · rw [h1.1]
    rfl
  · rw [h1.2]
    rfl
  · rw [h2.1]
    rfl
  · rw [h2.2]
    rfl

/-- C9: a segment whose byte size is at or above the 25 MB service limit
makes `transcribe_file` fail at once as oversized — zero invocations of
the remote capability and no back-off sleep. -/
theorem C9_oversize_fails_before_any_call {ε α : Type} (call : ℕ → Except ε α)
    (retries sizeBytes : ℕ)
    (h : MAX_FILE_SIZE_MB ≤ (sizeBytes : ℚ) / (1024 * 1024)) :
    transcribe_file true sizeBytes call retries = (.sizeExceeded, 0, []) := by
  unfold transcribe_file
  rw [if_neg (by decide), if_pos h]

/-- Witness for C9 at exactly 25 MB with a budget of 3 retries. -/
theorem C9_oversize_fails_before_any_call_witness :
    MAX_FILE_SIZE_MB ≤ ((25 * 1024 * 1024 : ℕ) : ℚ) / (1024 * 1024) ∧
    transcribe_file true (25 * 1024 * 1024) (fun _ => (Except.ok 0 : Except ℕ ℕ)) 3 =
      (.sizeExceeded, 0, []) :=
  ⟨by norm_num [MAX_FILE_SIZE_MB],
    C9_oversize_fails_before_any_call (fun _ => (Except.ok 0 : Except ℕ ℕ)) 3
      (25 * 1024 * 1024) (by norm_num [MAX_FILE_SIZE_MB])⟩

end AudioScribe
